import Mathlib

/-!
Verification development for a bounded-concurrency web scraper.

The source program is a single Go file.  Strings are modelled as lists of
Unicode code points (`Str`), the SQLite store as in-memory lists of rows,
the HTTP/browser/HTML collaborators as injected functions (they are
external collaborators of the core, per the specification), and the
concurrent orchestrator `Run` as a small-step transition system.
-/

/-- A Go string, modelled as its sequence of Unicode code points (runes). -/
abbrev Str := List Char

/-- Model of Go `strings.ToLower`, applied rune-wise.  The Unicode lowering
table is abstracted to its ASCII range (`Char.toLower`); the lowering is a
rune-wise map exactly as in the source library function. -/
def strToLower (s : Str) : Str := s.map Char.toLower

/-- The scanning loop of Go `strings.Count` for a non-empty pattern
`d :: ds`: left-to-right scan, counting non-overlapping occurrences and
skipping past each match.  The first argument is structural fuel; every
step consumes at least one character, so fuel equal to the string length
(as supplied by `countFrom`) never runs out. -/
def countLoop : Nat → Str → Char → Str → Nat
  | 0, _, _, _ => 0
  | _ + 1, [], _, _ => 0
  | fuel + 1, c :: rest, d, ds =>
    if c = d ∧ ds <+: rest then
      1 + countLoop fuel (rest.drop ds.length) d ds
    else
      countLoop fuel rest d ds

/-- The non-overlapping left-to-right occurrence count of the non-empty
pattern `d :: ds`, as computed by the loop of Go `strings.Count`. -/
def countFrom (s : Str) (d : Char) (ds : Str) : Nat :=
  countLoop s.length s d ds

/-- Model of Go `strings.Count s sub`: for the empty pattern it returns
`1 +` the number of runes of `s` (`utf8.RuneCountInString(s) + 1` in the
Go standard library); otherwise the non-overlapping occurrence count. -/
def strCount (s : Str) : Str → Nat
  | [] => s.length + 1
  | d :: ds => countFrom s d ds

/-- `countWordOccurrences` from the source:
`strings.Count(strings.ToLower(text), strings.ToLower(word))`. -/
def countWordOccurrences (text word : Str) : Nat :=
  strCount (strToLower text) (strToLower word)

/-- Spec-side definition, following the specification's words: the list of
match positions of a left-to-right scan that records a position `i` when
the (non-empty) pattern occurs at `i` and then jumps past that occurrence
(non-overlapping), otherwise advances by one. -/
def specGreedyFrom (s : Str) (d : Char) (ds : Str) (i : Nat) : List Nat :=
  if h : i + (ds.length + 1) ≤ s.length then
    if (d :: ds) <+: s.drop i then
      i :: specGreedyFrom s d ds (i + (ds.length + 1))
    else
      specGreedyFrom s d ds (i + 1)
  else []
termination_by s.length - i
decreasing_by
  · omega
  · omega

/-- Spec-side definition: the number of non-overlapping, left-to-right,
case-insensitive occurrences of the non-empty word `d :: ds` in `text`
(case-insensitivity rendered, as in the spec's contract, by lowering both
operands). -/
def specCaseInsensitiveCount (text : Str) (d : Char) (ds : Str) : Nat :=
  (specGreedyFrom (strToLower text) (Char.toLower d) (strToLower ds) 0).length

/-- One row of the `word_counts` table: `(site, word, count)`.  The
auto-increment id and the insertion timestamp are managed by the storage
engine (an external collaborator) and are not part of the modelled data. -/
structure WCRow where
  site : Str
  word : Str
  count : Nat
deriving DecidableEq

/-- The durable store: the `scraped_data` rows (site, data) and the
`word_counts` rows, each kept in insertion order (append-only tables). -/
structure Db where
  scraped : List (Str × Str)
  wordCounts : List WCRow
deriving DecidableEq

/-- `INSERT INTO word_counts (site, word, count) VALUES (?, ?, ?)` on the
success path of the storage engine: appends one row. -/
def insertWordCount (db : Db) (r : WCRow) : Db :=
  { db with wordCounts := db.wordCounts ++ [r] }

/-- `saveData` from the source: `INSERT INTO scraped_data (site, data)`
on the success path of the storage engine; appends one row. -/
def saveData (db : Db) (site data : Str) : Db :=
  { db with scraped := db.scraped ++ [(site, data)] }

/-- The parsed document model (goquery, an external collaborator), reduced
to the two queries the core performs: `Find("a")` yields the anchor
elements, each with its optional `href` attribute, and `Find("body")`
yields the text content of each body-matched selection. -/
structure HtmlDoc where
  anchors : List (Option Str)
  bodies : List Str

/-- A custom parser registered for a site: it reads the parsed document,
may perform arbitrary persistence writes, and may report an error. -/
def CustomParser : Type := HtmlDoc → Db → Db × Option Str

/-- Which fetcher path `ProcessSite` invoked for a target. -/
inductive FetchPath where
  | rendered
  | plain
deriving DecidableEq

/-- Which extraction strategy `ProcessSite` applied after parsing. -/
inductive StrategyUsed where
  | customStrat
  | defaultStrat
deriving DecidableEq

/-- Observable trace of one `ProcessSite` call: the fetch path that was
invoked, and the strategy that was applied (none when fetch or parse
failed before any strategy ran). -/
structure ProcessTrace where
  path : FetchPath
  strategy : Option StrategyUsed
deriving DecidableEq

/-- The default strategy body from `ProcessSite`: `doc.Find("a").Each`,
saving one `scraped_data` row per anchor that has an `href` attribute and
skipping anchors without one. -/
def runDefault (url : Str) (doc : HtmlDoc) (db : Db) : Db :=
  doc.anchors.foldl
    (fun d a =>
      match a with
      | some href => saveData d url href
      | none => d)
    db

/-- `ProcessSite` from the source.  The custom-parser registry is the
`CustomParsers` map of the `Scraper`; the plain fetcher (`FetchURL`), the
rendered fetcher (`ParseDynamicContent`, headless browser) and the HTML
parser (`goquery.NewDocumentFromReader`) are external collaborators,
injected as functions.  Mirroring the source, the registry is consulted
twice: once to choose the fetch path and once to choose the strategy. -/
def ProcessSite (customParsers : Str → Option CustomParser)
    (plainFetch renderedFetch : Str → Except Str Str)
    (parseDoc : Str → Except Str HtmlDoc)
    (url : Str) (db : Db) : ProcessTrace × Db :=
  let fetched : FetchPath × Except Str Str :=
    match customParsers url with
    | some _ => (.rendered, renderedFetch url)
    | none => (.plain, plainFetch url)
  match fetched.2 with
  | .error _ => ({ path := fetched.1, strategy := none }, db)
  | .ok html =>
    match parseDoc html with
    | .error _ => ({ path := fetched.1, strategy := none }, db)
    | .ok doc =>
      match customParsers url with
      | some parser =>
        ({ path := fetched.1, strategy := some .customStrat }, (parser doc db).1)
      | none =>
        ({ path := fetched.1, strategy := some .defaultStrat }, runDefault url doc db)

/-- `SearchWordInSite` from the source: plain fetch only, parse, sum the
occurrence counts over all `body` selections (adding only the positive
counts, as the source's `if occurrences > 0` guard does), then
unconditionally insert one `word_counts` row with the total — also when
the total is zero.  A fetch or parse failure returns without writing. -/
def SearchWordInSite (fetch : Str → Except Str Str)
    (parseDoc : Str → Except Str HtmlDoc)
    (url word : Str) (db : Db) : Db :=
  match fetch url with
  | .error _ => db
  | .ok html =>
    match parseDoc html with
    | .error _ => db
    | .ok doc =>
      let foundInstances := doc.bodies.foldl
        (fun acc text =>
          let occurrences := countWordOccurrences text word
          if occurrences > 0 then acc + occurrences else acc)
        0
      insertWordCount db { site := url, word := word, count := foundInstances }

/-- An HTTP request as `FetchURL` builds it: the URL and the User-Agent
header it sets. -/
structure HttpRequest where
  url : Str
  userAgent : Option Str
deriving DecidableEq

/-- An HTTP response: status code and body. -/
structure HttpResponse where
  statusCode : Nat
  body : Str
deriving DecidableEq

/-- The error message `FetchURL` builds for a non-200 status:
`fmt.Errorf("unexpected status code: %d", resp.StatusCode)`. -/
def httpStatusErrorMsg (code : Nat) : Str :=
  "unexpected status code: ".toList ++ Nat.toDigits 10 code

/-- `FetchURL` from the source.  `newRequest` models `http.NewRequest`
(which can fail on a malformed URL) and `doRequest` models
`HTTPClient.Do` (transport; its 10-second timeout surfaces as a transport
error), both external collaborators.  The User-Agent is picked from the
pool by `time.Now().UnixNano() % len(pool)`, modelled by the `nowNano`
input.  A response is accepted exactly when its status code is 200
(`http.StatusOK`); otherwise an error is returned. -/
def FetchURL (userAgents : List Str) (nowNano : Nat)
    (newRequest : Str → Except Str HttpRequest)
    (doRequest : HttpRequest → Except Str HttpResponse)
    (url : Str) : Except Str Str :=
  match newRequest url with
  | .error e => .error e
  | .ok req =>
    let req := { req with userAgent := userAgents.get? (nowNano % userAgents.length) }
    match doRequest req with
    | .error e => .error e
    | .ok resp =>
      if resp.statusCode ≠ 200 then .error (httpStatusErrorMsg resp.statusCode)
      else .ok resp.body

/-- Spec-side definition, following the specification's words: an HTTP
"success status" in the usual sense of the 2xx class. -/
def specIsSuccessStatus (code : Nat) : Bool :=
  decide (200 ≤ code ∧ code < 300)

/-- First-match lookup in an association list (the content of a Go map,
represented in key-insertion order). -/
def lookupA {α β : Type} [DecidableEq α] : List (α × β) → α → Option β
  | [], _ => none
  | (k', v') :: rest, k => if k = k' then some v' else lookupA rest k

/-- Go map assignment `m[k] = v` on the association-list representation:
replaces the value at an existing key in place, otherwise appends the new
key. -/
def setAssoc {α β : Type} [DecidableEq α] : List (α × β) → α → β → List (α × β)
  | [], k, v => [(k, v)]
  | (k', v') :: rest, k, v =>
    if k = k' then (k', v) :: rest else (k', v') :: setAssoc rest k v

/-- One step of the grouping loop of `ExportWordCountsToCSVGrouped`:
`siteData[site][word] = count`, creating the inner map when absent. -/
def groupStep (acc : List (Str × List (Str × Nat))) (r : WCRow) :
    List (Str × List (Str × Nat)) :=
  let inner := (lookupA acc r.site).getD []
  setAssoc acc r.site (setAssoc inner r.word r.count)

/-- The full grouping fold of `ExportWordCountsToCSVGrouped` over the rows
returned by `SELECT site, word, count FROM word_counts ORDER BY site`. -/
def groupBySite (rows : List WCRow) : List (Str × List (Str × Nat)) :=
  rows.foldl groupStep []

/-- Read-back of the nested mapping: `siteData[site][word]`. -/
def lookupGrouped (m : List (Str × List (Str × Nat))) (site word : Str) : Option Nat :=
  (lookupA m site).bind (fun inner => lookupA inner word)

/-- `fmt.Sprintf("%s: %d", word, count)`. -/
def fmtPair (p : Str × Nat) : Str :=
  p.1 ++ ": ".toList ++ Nat.toDigits 10 p.2

/-- The ` | ` separator of `strings.Join(wordCounts, " | ")`. -/
def sepBar : Str := " | ".toList

/-- The header row `{"Site", "Words and Counts"}`. -/
def csvHeaderGrouped : List Str := ["Site".toList, "Words and Counts".toList]

/-- The CSV rows written by `ExportWordCountsToCSVGrouped`, given the
enumeration `enum` in which the Go runtime happens to iterate the grouped
map (Go map iteration order is unspecified): the header row, then one row
per enumerated site with its word/count pairs joined by `" | "`. -/
def exportWordCountsToCSVGrouped (enum : List (Str × List (Str × Nat))) :
    List (List Str) :=
  csvHeaderGrouped ::
    enum.map (fun e => [e.1, List.intercalate sepBar (e.2.map fmtPair)])

/-- `enum` is a possible iteration order of the Go map represented by `m`:
a permutation of the sites, each carrying a permutation of its inner
word/count pairs. -/
def IsMapEnum (m enum : List (Str × List (Str × Nat))) : Prop :=
  ∃ m', m'.Perm m ∧ List.Forall₂ (fun e o => e.1 = o.1 ∧ e.2.Perm o.2) enum m'

/-- Phase of one spawned goroutine of `Run`:
`func(site) { defer wg.Done(); s.ProcessSite(site); <-sem }`.
`working` = executing `ProcessSite` (whatever its outcome);
`releasing` = about to execute `<-sem`;
`calling` = about to execute the deferred `wg.Done()`;
`done` = finished. -/
inductive UnitPhase where
  | working
  | releasing
  | calling
  | done
deriving DecidableEq

/-- One spawned per-target unit of work. -/
structure WorkerUnit where
  site : Str
  phase : UnitPhase
deriving DecidableEq

/-- The main goroutine of `Run`, between the statements of its loop:
`loop remaining` = at the top of the `for` loop; `added site rest` = after
`wg.Add(1)`; `acquired site rest` = after `sem <- struct{}{}` (holding one
slot, about to spawn); `waiting` = at `wg.Wait()`; `returned` = `Run` has
returned. -/
inductive MainPhase where
  | loop (remaining : List Str)
  | added (site : Str) (remaining : List Str)
  | acquired (site : Str) (remaining : List Str)
  | waiting
  | returned
deriving DecidableEq

/-- Global state of an execution of `Run`: the main goroutine's position,
the spawned units, the number of occupied slots of the buffered channel
`sem` (capacity `Concurrency`), and the `WaitGroup` counter. -/
structure RunState where
  mainPh : MainPhase
  units : List WorkerUnit
  sem : Nat
  wg : Nat
deriving DecidableEq

/-- Interleaving small-step semantics of `Run` with concurrency ceiling
`C`.  A send on `sem` blocks while `sem = C`; a receive blocks while
`sem = 0`; `wg.Wait()` returns only when the counter is zero.  Any
goroutine may step at any time. -/
inductive RunStep (C : Nat) : RunState → RunState → Prop where
  | wgAdd (site : Str) (rest : List Str) (units : List WorkerUnit) (sem wg : Nat) :
      RunStep C ⟨.loop (site :: rest), units, sem, wg⟩
        ⟨.added site rest, units, sem, wg + 1⟩
  | semAcquire (site : Str) (rest : List Str) (units : List WorkerUnit)
      (sem wg : Nat) (h : sem < C) :
      RunStep C ⟨.added site rest, units, sem, wg⟩
        ⟨.acquired site rest, units, sem + 1, wg⟩
  | spawn (site : Str) (rest : List Str) (units : List WorkerUnit) (sem wg : Nat) :
      RunStep C ⟨.acquired site rest, units, sem, wg⟩
        ⟨.loop rest, units ++ [⟨site, .working⟩], sem, wg⟩
  | wgWait (units : List WorkerUnit) (sem wg : Nat) :
      RunStep C ⟨.loop [], units, sem, wg⟩ ⟨.waiting, units, sem, wg⟩
  | runReturn (units : List WorkerUnit) (sem : Nat) :
      RunStep C ⟨.waiting, units, sem, 0⟩ ⟨.returned, units, sem, 0⟩
  | unitFinish (m : MainPhase) (pre post : List WorkerUnit) (site : Str) (sem wg : Nat) :
      RunStep C ⟨m, pre ++ ⟨site, .working⟩ :: post, sem, wg⟩
        ⟨m, pre ++ ⟨site, .releasing⟩ :: post, sem, wg⟩
  | unitRelease (m : MainPhase) (pre post : List WorkerUnit) (site : Str) (sem wg : Nat) :
      RunStep C ⟨m, pre ++ ⟨site, .releasing⟩ :: post, sem + 1, wg⟩
        ⟨m, pre ++ ⟨site, .calling⟩ :: post, sem, wg⟩
  | unitDone (m : MainPhase) (pre post : List WorkerUnit) (site : Str) (sem wg : Nat) :
      RunStep C ⟨m, pre ++ ⟨site, .calling⟩ :: post, sem, wg + 1⟩
        ⟨m, pre ++ ⟨site, .done⟩ :: post, sem, wg⟩

/-- States reachable by `Run` over target list `sites` with ceiling `C`,
from the initial state (main at the top of the loop, nothing spawned,
empty semaphore, zero wait-group counter). -/
inductive RunReachable (C : Nat) (sites : List Str) : RunState → Prop where
  | start : RunReachable C sites ⟨.loop sites, [], 0, 0⟩
  | step {s s' : RunState} :
      RunReachable C sites s → RunStep C s s' → RunReachable C sites s'

/-- A unit is in flight while it holds a semaphore slot: from its spawn
until its `<-sem` has executed. -/
def isInFlight (u : WorkerUnit) : Bool :=
  match u.phase with
  | .working => true
  | .releasing => true
  | _ => false

/-- A unit that has not yet completed (not yet executed `wg.Done()`). -/
def isUnfinished (u : WorkerUnit) : Bool :=
  match u.phase with
  | .done => false
  | _ => true

/-- Number of simultaneously in-flight units. -/
def inFlight (s : RunState) : Nat := s.units.countP isInFlight

/-- Semaphore slots held by the main goroutine (one between its
`sem <- struct{}{}` and the spawn of the corresponding unit). -/
def mainHold : MainPhase → Nat
  | .acquired _ _ => 1
  | _ => 0

/-- Wait-group counter contributed by the main goroutine (one between a
`wg.Add(1)` and the spawn of the corresponding unit). -/
def mainWgShare : MainPhase → Nat
  | .added _ _ => 1
  | .acquired _ _ => 1
  | _ => 0

/-- Targets not yet spawned as units. -/
def mainTodo : MainPhase → Nat
  | .loop rem => rem.length
  | .added _ rest => rest.length + 1
  | .acquired _ rest => rest.length + 1
  | _ => 0

/-- Inductive invariant of `Run`: the semaphore counts exactly the held
slots and never exceeds the ceiling; the wait-group counter counts exactly
the unfinished units plus the main goroutine's pending share; one unit is
spawned per target; and after `Run` has returned the wait-group counter is
zero. -/
def RunInv (C N : Nat) (s : RunState) : Prop :=
  s.sem = mainHold s.mainPh + inFlight s ∧
  s.sem ≤ C ∧
  s.wg = mainWgShare s.mainPh + s.units.countP isUnfinished ∧
  s.units.length + mainTodo s.mainPh = N

/-- The `Concurrency` field set by `NewScraper` in the source. -/
def newScraperConcurrency : Nat := 5

theorem countLoop_eq_zero_of_short (d : Char) (ds : Str) :
    ∀ (fuel : Nat) (t : Str), t.length ≤ ds.length → countLoop fuel t d ds = 0 := by
  intro fuel
  induction fuel with
  | zero => intro t _; rfl
  | succ k ih =>
    intro t hlen
    match t with
    | [] => rfl
    | c :: rest =>
      rw [countLoop]
      have hnot : ¬(c = d ∧ ds <+: rest) := by
        rintro ⟨-, hp⟩
        have := hp.length_le
        simp only [List.length_cons] at hlen
        omega
      rw [if_neg hnot]
      exact ih rest (by simp only [List.length_cons] at hlen; omega)

theorem countLoop_drop_eq (s : Str) (d : Char) (ds : Str) :
    ∀ (fuel i : Nat), s.length - i ≤ fuel →
      countLoop fuel (s.drop i) d ds = (specGreedyFrom s d ds i).length := by
  intro fuel
  induction fuel with
  | zero =>
    intro i hk
    rw [specGreedyFrom]
    have hbound : ¬ (i + (ds.length + 1) ≤ s.length) := by omega
    rw [dif_neg hbound]
    rfl
  | succ k ih =>
    intro i hk
    rw [specGreedyFrom]
    by_cases hbound : i + (ds.length + 1) ≤ s.length
    · rw [dif_pos hbound]
      by_cases hp : (d :: ds) <+: s.drop i
      · rw [if_pos hp]
        obtain ⟨t, ht⟩ := hp
        have hdrop : s.drop i = d :: (ds ++ t) := by
          rw [← ht]; simp
        rw [hdrop, countLoop]
        have hcond : d = d ∧ ds <+: ds ++ t := ⟨rfl, ⟨t, rfl⟩⟩
        rw [if_pos hcond]
        have htail : (ds ++ t).drop ds.length = t := List.drop_left ds t
        have ht2 : t = s.drop (i + (ds.length + 1)) := by
          have hcg := congrArg (List.drop (ds.length + 1)) hdrop
          rw [List.drop_drop] at hcg
          have : (d :: (ds ++ t)).drop (ds.length + 1) = t := by
            rw [List.drop_succ_cons, List.drop_left]
          rw [this] at hcg
          exact hcg.symm
        rw [htail, ht2, ih (i + (ds.length + 1)) (by omega)]
        simp [Nat.add_comm]
      · rw [if_neg hp]
        have hlt : i < s.length := by omega
        have hne : s.drop i ≠ [] := by
          intro hnil
          have := congrArg List.length hnil
          simp only [List.length_drop, List.length_nil] at this
          omega
        obtain ⟨c, rest, hcr⟩ := List.exists_cons_of_ne_nil hne
        have hrest : rest = s.drop (i + 1) := by
          have := congrArg (List.drop 1) hcr
          rw [List.drop_drop] at this
          simpa using this.symm
        rw [hcr, countLoop]
        have hnot : ¬(c = d ∧ ds <+: rest) := by
          rintro ⟨hc, hpre⟩
          apply hp
          rw [hcr]
          obtain ⟨t, ht⟩ := hpre
          exact ⟨t, by simp [hc, ← ht]⟩
        rw [if_neg hnot, hrest]
        exact ih (i + 1) (by omega)
    · rw [dif_neg hbound]
      have hshort : (s.drop i).length ≤ ds.length := by
        simp only [List.length_drop]; omega
      simp [countLoop_eq_zero_of_short d ds _ _ hshort]

/-- Claim C1: for every text and every non-empty word, `countWordOccurrences`
returns the number of non-overlapping, left-to-right, case-insensitive
occurrences of the word as a substring of the text.  The function is a pure
Lean function (same inputs give the same result by construction) and its
codomain is `Nat`, so the result is nonnegative and zero is an ordinary
value, not an error. -/
theorem claimC1 (text : Str) (d : Char) (ds : Str) :
    countWordOccurrences text (d :: ds) = specCaseInsensitiveCount text d ds := by
  have h := countLoop_drop_eq (strToLower text) (Char.toLower d) (strToLower ds)
      (strToLower text).length 0 (by omega)
  simpa [countWordOccurrences, strCount, countFrom, strToLower,
    specCaseInsensitiveCount] using h

/-- Claim C10: `countWordOccurrences` is total for the empty word: it returns
one more than the number of Unicode code points of the text (the Go code
reaches the `utf8.RuneCountInString + 1` branch of `strings.Count`, and the
rune-wise lowering preserves the rune count), never an error. -/
theorem claimC10 (text : Str) :
    countWordOccurrences text [] = text.length + 1 := by
  simp [countWordOccurrences, strToLower, strCount]

theorem runInv_step {C N : Nat} {s s' : RunState}
    (hS : RunStep C s s') (hI : RunInv C N s) : RunInv C N s' := by
  obtain ⟨h1, h2, h3, h4⟩ := hI
  cases hS <;>
    refine ⟨?_, ?_, ?_, ?_⟩ <;>
      simp_all [RunInv, inFlight, mainHold, mainWgShare, mainTodo,
        List.countP_append, List.countP_cons, isInFlight, isUnfinished] <;>
      omega

theorem runInv_reachable {C : Nat} {sites : List Str} {s : RunState}
    (h : RunReachable C sites s) : RunInv C sites.length s := by
  induction h with
  | start => refine ⟨?_, ?_, ?_, ?_⟩ <;> simp [inFlight, mainHold, mainWgShare, mainTodo]
  | step _ hS ih => exact runInv_step hS ih

theorem wg_zero_of_returned {C : Nat} {sites : List Str} {s : RunState}
    (h : RunReachable C sites s) : s.mainPh = .returned → s.wg = 0 := by
  induction h with
  | start => intro hm; simp at hm
  | step _ hS ih =>
    cases hS with
    | wgAdd site rest units sem wg => intro hm; simp at hm
    | semAcquire site rest units sem wg h => intro hm; simp at hm
    | spawn site rest units sem wg => intro hm; simp at hm
    | wgWait units sem wg => intro hm; simp at hm
    | runReturn units sem => intro _; rfl
    | unitFinish m pre post site sem wg => exact ih
    | unitRelease m pre post site sem wg => exact ih
    | unitDone m pre post site sem wg =>
      intro hm
      exact absurd (ih hm) (by simp)

/-- Claim C7: in every execution of `Run` (every reachable state of its
interleaving semantics), the number of simultaneously in-flight
target-processing units never exceeds the concurrency ceiling `C`: a unit
starts only after the main goroutine has acquired one slot of the
capacity-`C` semaphore for it, and the slot is released (`<-sem`) when the
unit finishes, regardless of the outcome of its processing.  The ceiling
configured by `NewScraper` is 5. -/
theorem claimC7 (C : Nat) (sites : List Str) (s : RunState)
    (h : RunReachable C sites s) :
    inFlight s ≤ C ∧ newScraperConcurrency = 5 := by
  obtain ⟨h1, h2, -, -⟩ := runInv_reachable h
  exact ⟨by omega, rfl⟩

/-- Witness for C7: a concrete reachable state of a run over one target
with the default ceiling, one unit in flight. -/
theorem claimC7_witness :
    inFlight ⟨.loop [], [⟨['a'], .working⟩], 1, 1⟩ ≤ 5 ∧
      newScraperConcurrency = 5 :=
  claimC7 5 [['a']] ⟨.loop [], [⟨['a'], .working⟩], 1, 1⟩
    (RunReachable.step
      (RunReachable.step
        (RunReachable.step RunReachable.start
          (RunStep.wgAdd ['a'] [] [] 0 0))
        (RunStep.semAcquire ['a'] [] [] 0 1 (by decide)))
      (RunStep.spawn ['a'] [] [] 1 1))

/-- Claim C8: `Run` returns only after every dispatched unit has completed:
in every reachable state in which the main goroutine has returned, every
spawned unit has reached its terminal phase, and one unit was spawned per
target of the full list — the completion barrier (`wg.Wait()`) before any
export or aggregation runs. -/
theorem claimC8 (C : Nat) (sites : List Str) (s : RunState)
    (h : RunReachable C sites s) (hret : s.mainPh = .returned) :
    (∀ u ∈ s.units, u.phase = .done) ∧ s.units.length = sites.length := by
  obtain ⟨-, -, h3, h4⟩ := runInv_reachable h
  have hwg := wg_zero_of_returned h hret
  rw [hret] at h3 h4
  have hcount : s.units.countP isUnfinished = 0 := by
    simp [mainWgShare] at h3
    omega
  have hall := List.countP_eq_zero.mp hcount
  refine ⟨?_, ?_⟩
  · intro u hu
    by_contra hne
    refine hall u hu ?_
    unfold isUnfinished
    cases hph : u.phase <;> simp_all
  · simp [mainTodo] at h4
    exact h4

/-- Witness for C8: a complete concrete run over one target, ending in the
returned state; the theorem yields that its unit is done and that exactly
one unit was spawned. -/
theorem claimC8_witness :
    (∀ u ∈ (⟨.returned, [⟨['a'], .done⟩], 0, 0⟩ : RunState).units,
        u.phase = .done) ∧
      (⟨.returned, [⟨['a'], .done⟩], 0, 0⟩ : RunState).units.length =
        [(['a'] : Str)].length :=
  claimC8 1 [['a']] ⟨.returned, [⟨['a'], .done⟩], 0, 0⟩
    (RunReachable.step
      (RunReachable.step
        (RunReachable.step
          (RunReachable.step
            (RunReachable.step
              (RunReachable.step
                (RunReachable.step
                  (RunReachable.step RunReachable.start
                    (RunStep.wgAdd ['a'] [] [] 0 0))
                  (RunStep.semAcquire ['a'] [] [] 0 1 (by decide)))
                (RunStep.spawn ['a'] [] [] 1 1))
              (RunStep.wgWait [⟨['a'], .working⟩] 1 1))
            (RunStep.unitFinish .waiting [] [] ['a'] 1 1))
          (RunStep.unitRelease .waiting [] [] ['a'] 0 1))
        (RunStep.unitDone .waiting [] [] ['a'] 0 0))
      (RunStep.runReturn [⟨['a'], .done⟩] 0))
    rfl

theorem foldlCount_eq_sum (word : Str) :
    ∀ (l : List Str) (acc : Nat),
      l.foldl (fun acc text =>
          let occurrences := countWordOccurrences text word
          if occurrences > 0 then acc + occurrences else acc) acc =
        acc + (l.map fun t => countWordOccurrences t word).sum := by
  intro l
  induction l with
  | nil => intro acc; simp
  | cons t rest ih =>
    intro acc
    simp only [List.foldl_cons, List.map_cons, List.sum_cons]
    rw [ih]
    by_cases h : countWordOccurrences t word > 0
    · simp only [if_pos h]
      omega
    · simp only [if_neg h]
      omega

/-- Claim C2: when fetch and parse both succeed for a `(target, word)`
pair, `SearchWordInSite` appends exactly one `word_counts` row carrying
the total occurrence count summed over all body selections (also when that
total is zero — the insert is unconditional), and changes nothing else;
when fetch or parse fails, no row is written and the store is returned
unchanged (only that pair's processing is aborted). -/
theorem claimC2 (fetch : Str → Except Str Str)
    (parseDoc : Str → Except Str HtmlDoc) (url word : Str) (db : Db) :
    (∀ html doc, fetch url = .ok html → parseDoc html = .ok doc →
      SearchWordInSite fetch parseDoc url word db =
        { db with wordCounts := db.wordCounts ++
            [⟨url, word, (doc.bodies.map fun t => countWordOccurrences t word).sum⟩] }) ∧
    (∀ e, fetch url = .error e →
      SearchWordInSite fetch parseDoc url word db = db) ∧
    (∀ html e, fetch url = .ok html → parseDoc html = .error e →
      SearchWordInSite fetch parseDoc url word db = db) := by
  refine ⟨?_, ?_, ?_⟩
  · intro html doc hf hp
    simp only [SearchWordInSite, hf, hp, insertWordCount]
    rw [foldlCount_eq_sum]
    simp
  · intro e hf
    simp only [SearchWordInSite, hf]
  · intro html e hf hp
    simp only [SearchWordInSite, hf, hp]

/-- Witness for C2: a concrete successful fetch and parse appends exactly
the one summed row. -/
theorem claimC2_witness :
    SearchWordInSite (fun _ => .ok ['h']) (fun _ => .ok ⟨[], [['x']]⟩)
        ['u'] ['q'] ⟨[], []⟩ =
      { scraped := [], wordCounts :=
          [] ++ [⟨['u'], ['q'], ([(['x'] : Str)].map fun t => countWordOccurrences t ['q']).sum⟩] } :=
  (claimC2 (fun _ => .ok ['h']) (fun _ => .ok ⟨[], [['x']]⟩) ['u'] ['q']
    ⟨[], []⟩).1 ['h'] ⟨[], [['x']]⟩ rfl rfl

example :
    SearchWordInSite (fun _ => .ok ['h']) (fun _ => .ok ⟨[], [['x']]⟩)
      ['u'] ['q'] ⟨[], []⟩ = ⟨[], [⟨['u'], ['q'], 0⟩]⟩ := by decide

example :
    SearchWordInSite (fun _ => .error ['e']) (fun _ => .ok ⟨[], [['x']]⟩)
      ['u'] ['q'] ⟨[], []⟩ = ⟨[], []⟩ := by decide

/-- Claim C3: `ProcessSite` routes a target through the rendered
(headless-browser) fetch path exactly when the target is in the
custom-parser registry — a registered target never uses the plain path —
and, fetch and parse succeeding, applies the custom strategy for
registered targets and the default strategy otherwise. -/
theorem claimC3 (customParsers : Str → Option CustomParser)
    (plainFetch renderedFetch : Str → Except Str Str)
    (parseDoc : Str → Except Str HtmlDoc) (url : Str) (db : Db) :
    ((customParsers url).isSome →
      (ProcessSite customParsers plainFetch renderedFetch parseDoc url db).1.path =
        .rendered) ∧
    (customParsers url = none →
      (ProcessSite customParsers plainFetch renderedFetch parseDoc url db).1.path =
        .plain) ∧
    (∀ p html doc, customParsers url = some p → renderedFetch url = .ok html →
      parseDoc html = .ok doc →
      (ProcessSite customParsers plainFetch renderedFetch parseDoc url db).1.strategy =
        some .customStrat) ∧
    (∀ html doc, customParsers url = none → plainFetch url = .ok html →
      parseDoc html = .ok doc →
      (ProcessSite customParsers plainFetch renderedFetch parseDoc url db).1.strategy =
        some .defaultStrat) := by
  refine ⟨?_, ?_, ?_, ?_⟩
  · intro hsome
    obtain ⟨p, hp⟩ := Option.isSome_iff_exists.mp hsome
    simp only [ProcessSite, hp]
    cases hr : renderedFetch url with
    | error e => simp
    | ok html =>
      simp only
      cases hpd : parseDoc html with
      | error e => simp
      | ok doc => simp
  · intro hnone
    simp only [ProcessSite, hnone]
    cases hr : plainFetch url with
    | error e => simp
    | ok html =>
      simp only
      cases hpd : parseDoc html with
      | error e => simp
      | ok doc => simp
  · intro p html doc hp hr hpd
    simp [ProcessSite, hp, hr, hpd]
  · intro html doc hnone hr hpd
    simp [ProcessSite, hnone, hr, hpd]

/-- Witness for C3: a concrete registry containing `['r']`; that target is
routed through the rendered path with the custom strategy, and the
unregistered target `['p']` through the plain path with the default
strategy. -/
theorem claimC3_witness :
    ((ProcessSite (fun u => if u = ['r'] then some (fun _ db => (db, none)) else none)
        (fun _ => .ok ['h']) (fun _ => .ok ['h']) (fun _ => .ok ⟨[], []⟩)
        ['r'] ⟨[], []⟩).1.path = .rendered ∧
      (ProcessSite (fun u => if u = ['r'] then some (fun _ db => (db, none)) else none)
        (fun _ => .ok ['h']) (fun _ => .ok ['h']) (fun _ => .ok ⟨[], []⟩)
        ['r'] ⟨[], []⟩).1.strategy = some .customStrat) ∧
    ((ProcessSite (fun u => if u = ['r'] then some (fun _ db => (db, none)) else none)
        (fun _ => .ok ['h']) (fun _ => .ok ['h']) (fun _ => .ok ⟨[], []⟩)
        ['p'] ⟨[], []⟩).1.path = .plain ∧
      (ProcessSite (fun u => if u = ['r'] then some (fun _ db => (db, none)) else none)
        (fun _ => .ok ['h']) (fun _ => .ok ['h']) (fun _ => .ok ⟨[], []⟩)
        ['p'] ⟨[], []⟩).1.strategy = some .defaultStrat) := by
  have hr := claimC3 (fun u => if u = ['r'] then some (fun _ db => (db, none)) else none)
    (fun _ => .ok ['h']) (fun _ => .ok ['h']) (fun _ => .ok ⟨[], []⟩) ['r'] ⟨[], []⟩
  have hp := claimC3 (fun u => if u = ['r'] then some (fun _ db => (db, none)) else none)
    (fun _ => .ok ['h']) (fun _ => .ok ['h']) (fun _ => .ok ⟨[], []⟩) ['p'] ⟨[], []⟩
  exact ⟨⟨hr.1 rfl, hr.2.2.1 (fun _ db => (db, none)) ['h'] ⟨[], []⟩ rfl rfl rfl⟩,
    ⟨hp.2.1 rfl, hp.2.2.2 ['h'] ⟨[], []⟩ rfl rfl rfl⟩⟩

theorem runDefault_foldl (url : Str) :
    ∀ (ans : List (Option Str)) (db : Db),
      ans.foldl (fun d a =>
          match a with
          | some href => saveData d url href
          | none => d) db =
        { db with scraped := db.scraped ++ (ans.filterMap id).map (fun h => (url, h)) } := by
  intro ans
  induction ans with
  | nil => intro db; simp
  | cons a rest ih =>
    intro db
    cases a with
    | none =>
      rw [List.foldl_cons, ih]
      simp
    | some href =>
      rw [List.foldl_cons, ih]
      simp [saveData, List.append_assoc]

theorem filterMap_id_length {α : Type} :
    ∀ l : List (Option α), (l.filterMap id).length = l.countP Option.isSome := by
  intro l
  induction l with
  | nil => rfl
  | cons a rest ih =>
    cases a <;> simp [List.filterMap_cons, List.countP_cons, ih]

/-- Claim C4: under the default strategy (target absent from the registry,
fetch and parse successful), `ProcessSite` saves exactly one
`scraped_data(target, href)` row per anchor that has an `href` attribute —
one row per such anchor, in document order — and anchors without the
attribute are skipped without error and without stopping the iteration;
the `word_counts` table is untouched. -/
theorem claimC4 (customParsers : Str → Option CustomParser)
    (plainFetch renderedFetch : Str → Except Str Str)
    (parseDoc : Str → Except Str HtmlDoc) (url html : Str) (doc : HtmlDoc) (db : Db)
    (hnone : customParsers url = none) (hf : plainFetch url = .ok html)
    (hp : parseDoc html = .ok doc) :
    (ProcessSite customParsers plainFetch renderedFetch parseDoc url db).2.scraped =
      db.scraped ++ (doc.anchors.filterMap id).map (fun h => (url, h)) ∧
    (ProcessSite customParsers plainFetch renderedFetch parseDoc url db).2.scraped.length =
      db.scraped.length + doc.anchors.countP Option.isSome ∧
    (ProcessSite customParsers plainFetch renderedFetch parseDoc url db).2.wordCounts =
      db.wordCounts := by
  have hps : (ProcessSite customParsers plainFetch renderedFetch parseDoc url db).2 =
      { db with scraped := db.scraped ++ (doc.anchors.filterMap id).map (fun h => (url, h)) } := by
    simp [ProcessSite, hnone, hf, hp, runDefault, runDefault_foldl]
  refine ⟨by rw [hps], ?_, by rw [hps]⟩
  rw [hps]
  simp [filterMap_id_length]

/-- Witness for C4: a concrete document with two href-bearing anchors and
one bare anchor yields exactly two saved rows and an unchanged
`word_counts` table. -/
theorem claimC4_witness :
    (ProcessSite (fun _ => none) (fun _ => .ok ['h']) (fun _ => .error ['e'])
        (fun _ => .ok ⟨[some ['x'], none, some ['y']], []⟩) ['u'] ⟨[], []⟩).2.scraped =
      [] ++ (([some ['x'], none, some ['y']] : List (Option Str)).filterMap id).map
        (fun h => ((['u'] : Str), h)) ∧
    (ProcessSite (fun _ => none) (fun _ => .ok ['h']) (fun _ => .error ['e'])
        (fun _ => .ok ⟨[some ['x'], none, some ['y']], []⟩) ['u'] ⟨[], []⟩).2.scraped.length =
      ([] : List (Str × Str)).length +
        ([some ['x'], none, some ['y']] : List (Option Str)).countP Option.isSome ∧
    (ProcessSite (fun _ => none) (fun _ => .ok ['h']) (fun _ => .error ['e'])
        (fun _ => .ok ⟨[some ['x'], none, some ['y']], []⟩) ['u'] ⟨[], []⟩).2.wordCounts =
      ([] : List WCRow) :=
  claimC4 (fun _ => none) (fun _ => .ok ['h']) (fun _ => .error ['e'])
    (fun _ => .ok ⟨[some ['x'], none, some ['y']], []⟩) ['u'] ['h']
    ⟨[some ['x'], none, some ['y']], []⟩ ⟨[], []⟩ rfl rfl rfl

example :
    (ProcessSite (fun _ => none) (fun _ => .ok ['h']) (fun _ => .error ['e'])
      (fun _ => .ok ⟨[some ['x'], none, some ['y']], []⟩) ['u'] ⟨[], []⟩).2 =
      ⟨[(['u'], ['x']), (['u'], ['y'])], []⟩ := by decide

/-- Counterexample for C9 as stated: a response whose status code 204 is a
success status in the HTTP sense (2xx), yet `FetchURL` — which accepts
exactly status 200 — returns an error for it rather than the body. -/
theorem claimC9_counterexample :
    specIsSuccessStatus 204 = true ∧
    FetchURL [['u']] 0 (fun u => .ok ⟨u, none⟩)
        (fun _ => .ok ⟨204, ['x']⟩) ['w'] =
      .error (httpStatusErrorMsg 204) := by
  exact ⟨by decide, rfl⟩

/-- Claim C9 (amended): when request construction succeeds, `FetchURL`
returns an error exactly when the transport request fails or the response
status differs from 200 (the one status the source accepts as success);
for every response with status 200 it returns the response body without
error. -/
theorem claimC9_amended (userAgents : List Str) (nowNano : Nat)
    (newRequest : Str → Except Str HttpRequest)
    (doRequest : HttpRequest → Except Str HttpResponse)
    (url : Str) (req : HttpRequest) (hreq : newRequest url = .ok req) :
    (∀ e, doRequest { req with userAgent := userAgents.get? (nowNano % userAgents.length) } =
        .error e →
      FetchURL userAgents nowNano newRequest doRequest url = .error e) ∧
    (∀ resp, doRequest { req with userAgent := userAgents.get? (nowNano % userAgents.length) } =
        .ok resp →
      (resp.statusCode = 200 →
        FetchURL userAgents nowNano newRequest doRequest url = .ok resp.body) ∧
      (resp.statusCode ≠ 200 →
        FetchURL userAgents nowNano newRequest doRequest url =
          .error (httpStatusErrorMsg resp.statusCode))) := by
  refine ⟨?_, ?_⟩
  · intro e hdo
    simp only [FetchURL, hreq]
    rw [hdo]
  · intro resp hdo
    refine ⟨?_, ?_⟩
    · intro h200
      simp only [FetchURL, hreq]
      rw [hdo]
      simp [h200]
    · intro hne
      simp only [FetchURL, hreq]
      rw [hdo]
      simp [hne]

/-- Witness for the amended C9: a concrete 200 response is returned as its
body. -/
theorem claimC9_amended_witness :
    FetchURL [['u']] 0 (fun u => .ok ⟨u, none⟩)
        (fun _ => .ok ⟨200, ['x']⟩) ['w'] = .ok ['x'] :=
  ((claimC9_amended [['u']] 0 (fun u => .ok ⟨u, none⟩)
      (fun _ => .ok ⟨200, ['x']⟩) ['w'] ⟨['w'], none⟩ rfl).2
    ⟨200, ['x']⟩ rfl).1 rfl

theorem lookupA_setAssoc {α β : Type} [DecidableEq α] (m : List (α × β)) (k k' : α) (v : β) :
    lookupA (setAssoc m k v) k' = if k' = k then some v else lookupA m k' := by
  induction m with
  | nil => simp [setAssoc, lookupA]
  | cons kv rest ih =>
    obtain ⟨k₀, v₀⟩ := kv
    by_cases hk : k = k₀
    · subst hk
      by_cases h' : k' = k <;> simp [setAssoc, lookupA, h']
    · by_cases h' : k' = k₀
      · subst h'
        have hne : k' ≠ k := fun h => hk h.symm
        simp [setAssoc, hk, lookupA, hne]
      · simp [setAssoc, hk, lookupA, h', ih]

theorem mem_keys_setAssoc {α β : Type} [DecidableEq α] (m : List (α × β)) (k a : α) (v : β) :
    a ∈ (setAssoc m k v).map Prod.fst ↔ a ∈ m.map Prod.fst ∨ a = k := by
  induction m with
  | nil => simp [setAssoc]
  | cons kv rest ih =>
    obtain ⟨k₀, v₀⟩ := kv
    by_cases hk : k = k₀
    · subst hk
      simp [setAssoc]
      tauto
    · simp [setAssoc, hk, ih]
      tauto

theorem nodup_keys_setAssoc {α β : Type} [DecidableEq α] (m : List (α × β)) (k : α) (v : β)
    (h : (m.map Prod.fst).Nodup) : ((setAssoc m k v).map Prod.fst).Nodup := by
  induction m with
  | nil => simp [setAssoc]
  | cons kv rest ih =>
    obtain ⟨k₀, v₀⟩ := kv
    simp only [List.map_cons, List.nodup_cons] at h
    obtain ⟨hnotin, hrest⟩ := h
    by_cases hk : k = k₀
    · subst hk
      simp [setAssoc, hnotin, hrest]
    · simp only [setAssoc, if_neg hk, List.map_cons, List.nodup_cons]
      refine ⟨?_, ih hrest⟩
      rw [mem_keys_setAssoc]
      rintro (h1 | h2)
      · exact hnotin h1
      · exact hk h2.symm

theorem mem_keys_groupStep (m : List (Str × List (Str × Nat))) (r : WCRow) (a : Str) :
    a ∈ (groupStep m r).map Prod.fst ↔ a ∈ m.map Prod.fst ∨ a = r.site :=
  mem_keys_setAssoc m r.site a _

theorem keys_groupBySite_aux :
    ∀ (rows : List WCRow) (acc : List (Str × List (Str × Nat))),
      ((acc.map Prod.fst).Nodup → ((rows.foldl groupStep acc).map Prod.fst).Nodup) ∧
      (∀ s : Str, s ∈ (rows.foldl groupStep acc).map Prod.fst ↔
        s ∈ acc.map Prod.fst ∨ ∃ w c, (⟨s, w, c⟩ : WCRow) ∈ rows) := by
  intro rows
  induction rows with
  | nil => intro acc; simp
  | cons r rest ih =>
    intro acc
    simp only [List.foldl_cons]
    obtain ⟨ihN, ihM⟩ := ih (groupStep acc r)
    constructor
    · intro hacc
      exact ihN (nodup_keys_setAssoc acc r.site _ hacc)
    · intro s
      rw [ihM s, mem_keys_groupStep]
      constructor
      · rintro ((h | h) | ⟨w, c, hwc⟩)
        · exact .inl h
        · refine .inr ⟨r.word, r.count, ?_⟩
          rw [h]
          exact List.mem_cons_self _ _
        · exact .inr ⟨w, c, List.mem_cons_of_mem _ hwc⟩
      · rintro (h | ⟨w, c, hwc⟩)
        · exact .inl (.inl h)
        · rcases List.mem_cons.mp hwc with heq | htail
          · exact .inl (.inr (congrArg WCRow.site heq))
          · exact .inr ⟨w, c, htail⟩

theorem lookupGrouped_groupStep (m : List (Str × List (Str × Nat))) (r : WCRow)
    (site word : Str) :
    lookupGrouped (groupStep m r) site word =
      if site = r.site ∧ word = r.word then some r.count
      else lookupGrouped m site word := by
  unfold lookupGrouped groupStep
  rw [lookupA_setAssoc]
  by_cases hs : site = r.site
  · rw [if_pos hs]
    simp only [Option.some_bind]
    rw [lookupA_setAssoc]
    by_cases hw : word = r.word
    · simp [hs, hw]
    · rw [if_neg hw, if_neg (fun h => hw h.2), hs]
      cases hmm : lookupA m r.site with
      | none => simp [lookupA]
      | some inner => simp
  · rw [if_neg hs, if_neg (fun h => hs h.1)]

/-- Claim C5: when the stored `word_counts` rows contain several
observations for the same `(target, word)` pair, the grouping fold of
`ExportWordCountsToCSVGrouped` maps that pair to the count of the last row
folded (last-write-wins during aggregation: the nested lookup returns the
count of the last matching queried row, or nothing when no row matches),
while the storage insert itself is append-only and keeps every row. -/
theorem claimC5 :
    (∀ (rows : List WCRow) (site word : Str),
      lookupGrouped (groupBySite rows) site word =
        ((rows.filter fun r => decide (site = r.site ∧ word = r.word)).getLast?).map
          WCRow.count) ∧
    (∀ (db : Db) (r : WCRow), (insertWordCount db r).wordCounts = db.wordCounts ++ [r]) := by
  refine ⟨?_, fun db r => rfl⟩
  intro rows site word
  induction rows using List.reverseRecOn with
  | nil => simp [groupBySite, lookupGrouped, lookupA]
  | append_singleton rows r ih =>
    unfold groupBySite at ih ⊢
    rw [List.foldl_append, List.foldl_cons, List.foldl_nil, lookupGrouped_groupStep,
      List.filter_append]
    by_cases hmatch : site = r.site ∧ word = r.word
    · rw [if_pos hmatch]
      simp [hmatch, List.getLast?_concat]
    · rw [if_neg hmatch, ih]
      simp [hmatch]

example :
    lookupGrouped (groupBySite [⟨['a'], ['w'], 1⟩, ⟨['a'], ['w'], 7⟩]) ['a'] ['w'] =
      some 7 := by decide

theorem forall₂_fst_eq {l₁ l₂ : List (Str × List (Str × Nat))}
    (h : List.Forall₂ (fun e o => e.1 = o.1 ∧ e.2.Perm o.2) l₁ l₂) :
    l₁.map Prod.fst = l₂.map Prod.fst := by
  induction h with
  | nil => rfl
  | cons h1 _ ih => simp [h1.1, ih]

/-- Counterexample for C6 as stated: with two stored sites, iterating the
grouped Go map in the reversed order — a legal iteration order of a Go
map, whose iteration order is unspecified — produces the data rows in an
order that is not the target-sorted grouping order of the query. -/
theorem claimC6_counterexample :
    IsMapEnum (groupBySite [⟨['a'], ['w'], 1⟩, ⟨['b'], ['v'], 2⟩])
      [(['b'], [(['v'], 2)]), (['a'], [(['w'], 1)])] ∧
    ((exportWordCountsToCSVGrouped
          [(['b'], [(['v'], 2)]), (['a'], [(['w'], 1)])]).drop 1).map
        (fun row => row.headD []) ≠
      (groupBySite [⟨['a'], ['w'], 1⟩, ⟨['b'], ['v'], 2⟩]).map Prod.fst := by
  constructor
  · refine ⟨[(['b'], [(['v'], 2)]), (['a'], [(['w'], 1)])], by decide, ?_⟩
    exact List.Forall₂.cons ⟨rfl, List.Perm.refl _⟩
      (List.Forall₂.cons ⟨rfl, List.Perm.refl _⟩ List.Forall₂.nil)
  · decide

/-- Claim C6 (amended): `ExportWordCountsToCSVGrouped` writes the header
row and then exactly one row per target that has at least one stored
observation, each row consisting of the target and its `"word: count"`
pairs joined by `" | "`; both the row order and the word order within a
row are unspecified (they follow the Go map iteration order), so the rows
appear in whatever order the grouped map is enumerated, not necessarily
the target-sorted order of the query. -/
theorem claimC6_amended (rows : List WCRow)
    (enum : List (Str × List (Str × Nat)))
    (henum : IsMapEnum (groupBySite rows) enum) :
    exportWordCountsToCSVGrouped enum =
      csvHeaderGrouped ::
        enum.map (fun e => [e.1, List.intercalate sepBar (e.2.map fmtPair)]) ∧
    (enum.map Prod.fst).Nodup ∧
    (∀ s : Str, s ∈ enum.map Prod.fst ↔ ∃ w c, (⟨s, w, c⟩ : WCRow) ∈ rows) := by
  obtain ⟨m', hperm, hf2⟩ := henum
  have hkeys : enum.map Prod.fst = m'.map Prod.fst := forall₂_fst_eq hf2
  have hpermk : (m'.map Prod.fst).Perm ((groupBySite rows).map Prod.fst) :=
    hperm.map Prod.fst
  obtain ⟨hN, hM⟩ := keys_groupBySite_aux rows []
  have hnodupG : ((groupBySite rows).map Prod.fst).Nodup := hN (by simp)
  refine ⟨rfl, ?_, ?_⟩
  · rw [hkeys]
    exact hpermk.nodup_iff.mpr hnodupG
  · intro s
    rw [hkeys, hpermk.mem_iff]
    simpa [groupBySite] using hM s

/-- Witness for the amended C6: a concrete one-site store exported through
the identity enumeration. -/
theorem claimC6_amended_witness :
    exportWordCountsToCSVGrouped [((['a'] : Str), [((['w'] : Str), 1)])] =
      csvHeaderGrouped ::
        [((['a'] : Str), [((['w'] : Str), 1)])].map
          (fun e => [e.1, List.intercalate sepBar (e.2.map fmtPair)]) ∧
    ([((['a'] : Str), [((['w'] : Str), 1)])].map Prod.fst).Nodup ∧
    (∀ s : Str, s ∈ [((['a'] : Str), [((['w'] : Str), 1)])].map Prod.fst ↔
      ∃ w c, (⟨s, w, c⟩ : WCRow) ∈ [(⟨['a'], ['w'], 1⟩ : WCRow)]) :=
  claimC6_amended [⟨['a'], ['w'], 1⟩] [((['a'] : Str), [((['w'] : Str), 1)])]
    ⟨[((['a'] : Str), [((['w'] : Str), 1)])], by decide,
      List.Forall₂.cons ⟨rfl, List.Perm.refl _⟩ List.Forall₂.nil⟩

example : countWordOccurrences "aAbAbab".toList ('a' :: "b".toList) = 3 := by decide
example : countWordOccurrences "aaa".toList ('a' :: "a".toList) = 1 := by decide
example : countWordOccurrences "xyz".toList ('q' :: ("" : String).toList) = 0 := by decide
example : countWordOccurrences "hello".toList [] = 6 := by decide
